import Mathlib

/-!
Verification of the `oscarapi` header-session middleware
(`src/oscarapi/middleware.py`).

The session-id header is parsed by the Python regex

  `^SID:(?P<type>(?:ANON|AUTH)):(?P<realm>.*?):(?P<session_id>.+?)(?:[-:][0-9a-fA-F]+){0,2}$`

via `re.match`.  We embed this regex as an explicit backtracking matcher with
Python `re` semantics:

* `.` matches any character except `'\n'` (no DOTALL flag is set);
* `$` matches at the end of the string, or just before a final `'\n'`;
* `(?P<realm>.*?)` and `(?P<session_id>.+?)` are lazy: the engine prefers the
  shortest realm, then the shortest session id, that let the rest of the
  pattern reach the end anchor;
* the suffix group `(?:[-:][0-9a-fA-F]+){0,2}` is non-capturing, so only its
  satisfiability (not a particular decomposition) affects the captured groups.

Strings are modelled as `List Char`.
-/

/-- `[0-9a-fA-F]`, the hexadecimal-digit character class of the regex. -/
def isHexChar (c : Char) : Bool :=
  ('0' ≤ c && c ≤ '9') || ('a' ≤ c && c ≤ 'f') || ('A' ≤ c && c ≤ 'F')

/-- `[-:]`, the suffix-separator character class of the regex. -/
def isSepChar (c : Char) : Bool :=
  c = '-' || c = ':'

/-- Python `$` (without MULTILINE): matches at the end of the string or just
before a newline at the end of the string. -/
def atEnd : List Char → Bool
  | [] => true
  | [c] => c = '\n'
  | _ => false

/-- Consume one suffix segment `[-:][0-9a-fA-F]+` (with the greedy `+` taking
the maximal hex run) from the front of `l`; `none` if `l` does not start with
such a segment. -/
def dropSeg (l : List Char) : Option (List Char) :=
  match l with
  | [] => none
  | c :: rest =>
    if isSepChar c then
      if (rest.takeWhile isHexChar).isEmpty then none
      else some (rest.dropWhile isHexChar)
    else none

/-- Does `l` match `(?:[-:][0-9a-fA-F]+){0,2}$`?  Since the group is
non-capturing, only satisfiability matters; the greedy hex run is forced,
because a shortened hex run would leave a hex digit where a separator or the
end anchor is required. -/
def suffixMatch (l : List Char) : Bool :=
  atEnd l ||
    match dropSeg l with
    | none => false
    | some l1 =>
      atEnd l1 ||
        match dropSeg l1 with
        | none => false
        | some l2 => atEnd l2

/-- Match `(?P<session_id>.+?)(?:[-:][0-9a-fA-F]+){0,2}$` against `r`,
returning the captured `session_id`.  Lazily (shortest first) extend the
session id one character at a time; each character must not be `'\n'`. -/
def matchSid : List Char → Option (List Char)
  | [] => none
  | c :: rest =>
    if c = '\n' then none
    else if suffixMatch rest then some [c]
    else (matchSid rest).map (fun sd => c :: sd)

/-- Match `(?P<realm>.*?):(?P<session_id>.+?)(?:...){0,2}$` against `r`,
returning the captured `(realm, session_id)`.  The lazy realm first tries to
read the literal `':'` at the current position; if the remainder fails, the
realm absorbs the character (which must not be `'\n'`) and the scan moves
right — exactly Python's backtracking order for `.*?`. -/
def matchRealmSid : List Char → Option (List Char × List Char)
  | [] => none
  | c :: rest =>
    match (if c = ':' then matchSid rest else none) with
    | some sd => some ([], sd)
    | none =>
      if c = '\n' then none
      else (matchRealmSid rest).map (fun p => (c :: p.1, p.2))

/-- The `groupdict()` of a successful match: fields `type`, `realm`,
`session_id` (spec: *SessionReference*). -/
structure SessionURI where
  type : List Char
  realm : List Char
  session_id : List Char
deriving DecidableEq

/-- `HTTP_SESSION_ID_REGEX.match(s)`: the whole anchored pattern.  The
alternation `(?:ANON|AUTH)` tries `ANON` first; the two alternatives are
mutually exclusive literal prefixes. -/
def matchSessionId (s : List Char) : Option SessionURI :=
  if ("SID:ANON:".toList).isPrefixOf s then
    (matchRealmSid (s.drop 9)).map (fun p => ⟨"ANON".toList, p.1, p.2⟩)
  else if ("SID:AUTH:".toList).isPrefixOf s then
    (matchRealmSid (s.drop 9)).map (fun p => ⟨"AUTH".toList, p.1, p.2⟩)
  else none

/-!
## The middleware (translated from `src/oscarapi/middleware.py`)

External collaborators that the middleware receives from Django / DRF / the
URL configuration (`request.path`, `reverse('api-root')`, the request's
domain, the Authorization header value, the session store, the api-key
registry) are passed in as explicit parameters, exactly as the spec (§6)
treats them: opaque inputs.
-/

/-- A session object handed out by the external session store (spec §3). -/
structure Session where
  session_key : List Char
  isNew : Bool
deriving DecidableEq

/-- The DRF `APIException`s this middleware can catch: `NotAcceptable`
(raised on realm mismatch, HTTP 406) and the session-resume failure.  The
exact error type of the latter is left open by the spec (§9); only its
existence matters here. -/
inductive ApiExc where
  | notAcceptable (detail : List Char)
  | sessionNotFound
deriving DecidableEq

/-- `e.status_code`.  `NotAcceptable` carries 406.  The spec (§9) leaves the
concrete code of the session-not-found failure open; 404 is a placeholder
that no claim depends on. -/
def ApiExc.status_code : ApiExc → Nat
  | .notAcceptable _ => 406
  | .sessionNotFound => 404

/-- `e.detail`. -/
def ApiExc.detail : ApiExc → List Char
  | .notAcceptable d => d
  | .sessionNotFound => ("session not found".toList)

/-- Modelled from the spec: `oscarapi.utils.get_session` is not under `src/`
(only its caller `start_or_resume` is).  Per spec §4.3/§6,
`session-store.get(id, createIfAbsent)` returns the stored session when one
exists; when absent it transparently creates a session keyed by the requested
id unless `raise_on_create` is set, in which case it fails with
SessionNotFound.  The store is an opaque map from ids to existing sessions. -/
def get_session (store : List Char → Option Session) (session_id : List Char)
    (raise_on_create : Bool) : Except ApiExc Session :=
  match store session_id with
  | some s => Except.ok s
  | none =>
    if raise_on_create then Except.error ApiExc.sessionNotFound
    else Except.ok ⟨session_id, true⟩

/-- `start_or_resume` (middleware.py lines 75–79). -/
def start_or_resume (store : List Char → Option Session) (session_id : List Char)
    (session_type : List Char) : Except ApiExc Session :=
  if session_type = ("ANON".toList) then get_session store session_id false
  else get_session store session_id true

/-- Modelled from the spec: `oscarapi.utils.session_id_from_parsed_session_uri`
is not under `src/`.  Per spec §3/§4.4 the session is obtained by — and its
key compared against — the `sessionId` field of the parsed reference. -/
def session_id_from_parsed_session_uri (u : SessionURI) : List Char :=
  u.session_id

/-- The inbound request, with the values the middleware reads from it.
`api_root` is `reverse('api-root')` (external URL configuration), `domain` is
`get_domain(request)` (external collaborator, spec §6), `authorization` is
DRF's `get_authorization_header(request)`. -/
structure Request where
  path : List Char
  api_root : List Char
  http_session_id : Option (List Char)
  domain : List Char
  authorization : List Char

/-- `is_api_request` (middleware.py lines 82–85):
`request.path.lower().startswith(reverse('api-root').lower())`. -/
def is_api_request (request : Request) : Bool :=
  (request.api_root.map Char.toLower).isPrefixOf (request.path.map Char.toLower)

/-- `parse_session_id` (middleware.py lines 25–72): reads
`request.META['HTTP_SESSION_ID']`; absent header gives `None`; otherwise the
regex match's `groupdict()` or `None`.  Total — it never raises. -/
def parse_session_id (request : Request) : Option SessionURI :=
  match request.http_session_id with
  | none => none
  | some s => matchSessionId s

/-- The body template `'{"reason": "%s"}' % e.detail` of the except-handler
(middleware.py lines 128–129). -/
def format_reason (detail : List Char) : List Char :=
  ("\x7b\"reason\": \"".toList) ++ detail ++ ("\"\x7d".toList)

/-- The `NotAcceptable` message
`'Can not accept cookie with realm %s on realm %s' % (realm, domain)`
(middleware.py lines 110–115); `ugettext` is the identity here. -/
def realm_mismatch_detail (realm domain : List Char) : List Char :=
  ("Can not accept cookie with realm ".toList) ++ realm
    ++ (" on realm ".toList) ++ domain

/-- An `HttpResponse` as built by the except-handler. -/
structure HttpResp where
  status_code : Nat
  content : List Char
  content_type : List Char
deriving DecidableEq

/-- What `HeaderSessionMiddleware.process_request` returns. -/
inductive ReqAction where
  | handled                    -- returned `None` after binding the session (API path)
  | response (r : HttpResp)    -- returned an error `HttpResponse`
  | cookieFallback             -- fell through to `SessionMiddleware.process_request`
deriving DecidableEq

/-- The observable outcome of `HeaderSessionMiddleware.process_request`: the
returned value, the attributes assigned on `request`, and how often the
session store was consulted (`get_session` calls). -/
structure ReqOutcome where
  action : ReqAction
  boundSession : Option Session
  boundParsedUri : Option SessionURI
  csrfExempt : Bool
  resumerCalls : Nat
deriving DecidableEq

/-- `HeaderSessionMiddleware.process_request` (middleware.py lines 101–131).
The `try`/`except exceptions.APIException` block is rendered by turning each
`raise` into the response the handler builds from `e.status_code` and
`e.detail`.  On the realm-mismatch path the `raise` happens before any of the
three assignments (`request.session`, `request.parsed_session_uri`,
`request.csrf_processing_done`) and before `start_or_resume` runs. -/
def HeaderSessionMiddleware.process_request (store : List Char → Option Session)
    (request : Request) : ReqOutcome :=
  if is_api_request request then
    match parse_session_id request with
    | some parsed_session_uri =>
      if parsed_session_uri.realm ≠ request.domain then
        ReqOutcome.mk
          (ReqAction.response
            (HttpResp.mk
              (ApiExc.notAcceptable
                (realm_mismatch_detail parsed_session_uri.realm request.domain)).status_code
              (format_reason
                (ApiExc.notAcceptable
                  (realm_mismatch_detail parsed_session_uri.realm request.domain)).detail)
              ("application/json".toList)))
          none none false 0
      else
        match start_or_resume store
            (session_id_from_parsed_session_uri parsed_session_uri)
            parsed_session_uri.type with
        | Except.ok s =>
          ReqOutcome.mk ReqAction.handled (some s) (some parsed_session_uri) true 1
        | Except.error e =>
          ReqOutcome.mk
            (ReqAction.response
              (HttpResp.mk e.status_code (format_reason e.detail)
                ("application/json".toList)))
            none none false 1
    | none => ReqOutcome.mk ReqAction.cookieFallback none none false 0
  else ReqOutcome.mk ReqAction.cookieFallback none none false 0

/-- The response header value `'SID:%(type)s:%(realm)s:%(session_id)s'`
(middleware.py lines 147–149). -/
def render_session_header (u : SessionURI) : List Char :=
  ("SID:".toList) ++ u.type ++ (':' :: u.realm) ++ (':' :: u.session_id)

/-- The assert message `'%s is not equal to %s'` (middleware.py line 145). -/
def assert_message (a b : List Char) : List Char :=
  a ++ (" is not equal to ".toList) ++ b

/-- What `HeaderSessionMiddleware.process_response` does beyond delegating to
`SessionMiddleware.process_response` (which always runs afterwards and is
external). -/
inductive RespAction where
  | noop
  | assertionError (msg : List Char)   -- fatal `AssertionError`
  | headerWritten (value : List Char)  -- `response['Session-Id'] = value`
deriving DecidableEq

/-- `HeaderSessionMiddleware.process_response` (middleware.py lines 135–152).
`session` is `getattr(request, 'session', None)` and `parsed` is
`request.parsed_session_uri` when present. -/
def HeaderSessionMiddleware.process_response (request : Request)
    (session : Option Session) (parsed : Option SessionURI) : RespAction :=
  if is_api_request request then
    match session with
    | some s =>
      match parsed with
      | some u =>
        if s.session_key = session_id_from_parsed_session_uri u then
          RespAction.headerWritten (render_session_header u)
        else
          RespAction.assertionError
            (assert_message s.session_key (session_id_from_parsed_session_uri u))
      | none => RespAction.noop
    | none => RespAction.noop
  else RespAction.noop

/-- What `ApiGatewayMiddleWare.process_request` does: return `None` (allow) or
`logger.error('No credentials provided')` followed by
`raise PermissionDenied()`.  `PermissionDenied` is Django's 403-equivalent
condition; it is raised bare, with no detail and no response body attached by
this code. -/
inductive GatewayResult where
  | allow
  | permissionDenied (logged : Bool)
deriving DecidableEq

/-- `ApiGatewayMiddleWare.process_request` (middleware.py lines 155–168).
`known_keys` is the external registry existence check
`models.ApiKey.objects.filter(key=key).exists()` (spec §6). -/
def ApiGatewayMiddleWare.process_request (known_keys : List Char → Bool)
    (request : Request) : GatewayResult :=
  if is_api_request request then
    if known_keys request.authorization then GatewayResult.allow
    else GatewayResult.permissionDenied true
  else GatewayResult.allow

/-- The pipeline outcome: the gateway's verdict and, when the gateway let the
request through, the orchestrator's outcome (`none` = orchestrator never ran). -/
structure PipelineOutcome where
  gateway : GatewayResult
  orchestrator : Option ReqOutcome
deriving DecidableEq

/-- Modelled from the spec: the middleware *ordering* (gateway before
orchestrator, spec §2 control flow) lives in Django settings, outside `src/`.
A denied request never reaches `HeaderSessionMiddleware`. -/
def pipeline_process_request (known_keys : List Char → Bool)
    (store : List Char → Option Session) (request : Request) : PipelineOutcome :=
  match ApiGatewayMiddleWare.process_request known_keys request with
  | GatewayResult.permissionDenied l => PipelineOutcome.mk (GatewayResult.permissionDenied l) none
  | GatewayResult.allow =>
    PipelineOutcome.mk GatewayResult.allow
      (some (HeaderSessionMiddleware.process_request store request))

/-- The JSON error body of a pipeline outcome, when this middleware produced
one.  A gateway denial produces no response body in this code (the bare
`PermissionDenied` is rendered by the framework, outside the repository). -/
def pipeline_error_body (p : PipelineOutcome) : Option (List Char) :=
  match p.orchestrator with
  | some o =>
    match o.action with
    | ReqAction.response r => some r.content
    | _ => none
  | none => none

/-!
## Claim vocabulary

Specification-side notions used to state the claims: the shape of the
stripped suffix, a decidable test for a trailing `[-:]hex+` segment, and the
canonical (suffix-free) form of a wire string as §4.1/§8 of the spec describe
it.
-/

/-- `g` is one suffix segment: a separator followed by one or more hex
digits. -/
def SegShape (g : List Char) : Prop :=
  ∃ d h, g = d :: h ∧ isSepChar d = true ∧ h ≠ [] ∧ ∀ c ∈ h, isHexChar c = true

/-- What the end anchor `$` may leave unconsumed: nothing, or a final
newline. -/
def EndShape (e : List Char) : Prop := e = [] ∨ e = ['\n']

/-- `t` is what the regex leaves after the session id: zero, one or two
suffix segments, then the end anchor. -/
def SuffixShape (t : List Char) : Prop :=
  EndShape t ∨ (∃ g e, SegShape g ∧ EndShape e ∧ t = g ++ e)
    ∨ ∃ g1 g2 e, SegShape g1 ∧ SegShape g2 ∧ EndShape e ∧ t = g1 ++ g2 ++ e

/-- `sd` has no *proper* trailing `[-:]hex+` segment: any decomposition
`sd = u ++ sep :: hexrun` forces `u = []` (so stripping the segment would
empty the session id). -/
def NoProperTrailingSeg (sd : List Char) : Prop :=
  ∀ u d h, sd = u ++ d :: h → isSepChar d = true → h ≠ [] →
    (∀ c ∈ h, isHexChar c = true) → u = []

/-- Helper for `endsWithHexSeg`, working on the reversed list after at least
one hex digit has been seen: accept at a separator, keep consuming hex
digits otherwise. -/
def revSegAfterHex : List Char → Bool
  | [] => false
  | c :: rest => if isSepChar c then true else isHexChar c && revSegAfterHex rest

/-- Helper for `endsWithHexSeg`: the reversed list starts with one or more
hex digits followed by a separator. -/
def revEndsSeg : List Char → Bool
  | [] => false
  | c :: rest => isHexChar c && revSegAfterHex rest

/-- Decides whether `l` ends with a segment `[-:][0-9a-fA-F]+` — the claims'
"trailing `-hex`/`:hex` pattern" in the session id. -/
def endsWithHexSeg (l : List Char) : Bool :=
  revEndsSeg l.reverse

/-- Remove one trailing `[-:][0-9a-fA-F]+` segment, if the string ends with
one (the `+` taking the maximal trailing hex run). -/
def stripHexSegEnd (s : List Char) : Option (List Char) :=
  if (s.reverse.takeWhile isHexChar).isEmpty then none
  else
    match s.reverse.dropWhile isHexChar with
    | [] => none
    | c :: rest => if isSepChar c then some rest.reverse else none

/-- The remainder of `l` after its first `':'`, if any. -/
def afterColon : List Char → Option (List Char)
  | [] => none
  | c :: rest => if c = ':' then some rest else afterColon rest

/-- The remainder of `l` after its third `':'`, if any. -/
def afterThirdColon (s : List Char) : Option (List Char) :=
  (afterColon s).bind (fun s1 => (afterColon s1).bind afterColon)

/-- One guarded stripping step of the spec's canonicalization: remove a
trailing segment only when the result still extends past position `pre` (the
position just after the third colon), i.e. only when a non-empty remainder
stays after the third colon. -/
def stripGuard (pre : Nat) (s : List Char) : List Char :=
  match stripHexSegEnd s with
  | some v => if pre < v.length then v else s
  | none => s

/-- The spec's canonical form of a wire string (§4.1 resolution rule, §8
round-trip): strip up to two trailing `[-:]hex+` segments, rightmost first,
each time only when a non-empty remainder stays after the third colon.  This
definition follows the spec's words, independently of the parser, so that the
round-trip claim compares the code against it. -/
def canonicalStrip (s : List Char) : List Char :=
  match afterThirdColon s with
  | none => s
  | some tail => stripGuard (s.length - tail.length) (stripGuard (s.length - tail.length) s)

/-!
## Basic lemmas
-/

theorem sep_not_hex {c : Char} (h : isSepChar c = true) : isHexChar c = false := by
  simp only [isSepChar, Bool.or_eq_true, decide_eq_true_eq] at h
  rcases h with h | h <;> subst h <;> decide

theorem atEnd_shape {t : List Char} (h : atEnd t = true) : t = [] ∨ t = ['\n'] := by
  match t with
  | [] => exact Or.inl rfl
  | [c] =>
    simp only [atEnd, decide_eq_true_eq] at h
    exact Or.inr (by rw [h])
  | a :: b :: r => simp [atEnd] at h

theorem endShape_atEnd {t : List Char} (h : EndShape t) : atEnd t = true := by
  rcases h with h | h <;> subst h <;> decide

theorem mem_takeWhile_sat {p : Char → Bool} :
    ∀ {l : List Char} {c : Char}, c ∈ l.takeWhile p → p c = true := by
  intro l
  induction l with
  | nil => intro c h; simp [List.takeWhile] at h
  | cons d l' ih =>
    intro c h
    rw [List.takeWhile_cons] at h
    by_cases hd : p d
    · rw [if_pos hd] at h
      rcases List.mem_cons.mp h with h | h
      · rw [h]; exact hd
      · exact ih h
    · rw [if_neg hd] at h; simp at h

theorem takeWhile_append_of_all {p : Char → Bool} :
    ∀ {a b : List Char}, (∀ c ∈ a, p c = true) →
      (a ++ b).takeWhile p = a ++ b.takeWhile p := by
  intro a
  induction a with
  | nil => intro b _; simp
  | cons d a' ih =>
    intro b h
    have hd : p d = true := h d (List.mem_cons_self d a')
    rw [List.cons_append, List.takeWhile_cons, if_pos hd,
      ih (fun c hc => h c (List.mem_cons_of_mem d hc)), List.cons_append]

theorem dropWhile_append_of_all {p : Char → Bool} :
    ∀ {a b : List Char}, (∀ c ∈ a, p c = true) →
      (a ++ b).dropWhile p = b.dropWhile p := by
  intro a
  induction a with
  | nil => intro b _; simp
  | cons d a' ih =>
    intro b h
    have hd : p d = true := h d (List.mem_cons_self d a')
    rw [List.cons_append, List.dropWhile_cons, if_pos hd,
      ih (fun c hc => h c (List.mem_cons_of_mem d hc))]

theorem dropSeg_sound {l l' : List Char} (h : dropSeg l = some l') :
    ∃ d hx, l = d :: (hx ++ l') ∧ isSepChar d = true ∧ hx ≠ [] ∧
      ∀ c ∈ hx, isHexChar c = true := by
  match l with
  | [] => simp [dropSeg] at h
  | c :: rest =>
    rw [dropSeg] at h
    by_cases hc : isSepChar c
    · rw [if_pos hc] at h
      by_cases he : (rest.takeWhile isHexChar).isEmpty
      · rw [if_pos he] at h; exact absurd h (by simp)
      · rw [if_neg he] at h
        refine ⟨c, rest.takeWhile isHexChar,
          ?_, hc, by simpa using he, fun c hc => mem_takeWhile_sat hc⟩
        have := List.takeWhile_append_dropWhile isHexChar rest
        rw [Option.some_inj] at h
        rw [← h, this]
    · rw [if_neg hc] at h; exact absurd h (by simp)

theorem dropSeg_of_seg {d : Char} {hx z : List Char} (hd : isSepChar d = true)
    (hne : hx ≠ []) (hhex : ∀ c ∈ hx, isHexChar c = true)
    (hz : z = [] ∨ ∃ c z', z = c :: z' ∧ isHexChar c = false) :
    dropSeg (d :: (hx ++ z)) = some z := by
  have htw : (hx ++ z).takeWhile isHexChar = hx ∧
      (hx ++ z).dropWhile isHexChar = z := by
    rcases hz with hz | ⟨c, z', hz, hc⟩
    · subst hz
      constructor
      · rw [takeWhile_append_of_all hhex]; simp
      · rw [dropWhile_append_of_all hhex]; simp
    · subst hz
      constructor
      · rw [takeWhile_append_of_all hhex, List.takeWhile_cons, if_neg (by simp [hc])]
        simp
      · rw [dropWhile_append_of_all hhex, List.dropWhile_cons, if_neg (by simp [hc])]
  rw [dropSeg, if_pos hd, htw.1, htw.2, if_neg (by simpa using hne)]

theorem suffixMatch_sound {t : List Char} (h : suffixMatch t = true) :
    SuffixShape t := by
  rw [suffixMatch, Bool.or_eq_true] at h
  rcases h with h | h
  · exact Or.inl (atEnd_shape h)
  · rcases h1 : dropSeg t with _ | l1
    · rw [h1] at h; simp at h
    · rw [h1, Bool.or_eq_true] at h
      obtain ⟨d, hx, ht, hd, hne, hhex⟩ := dropSeg_sound h1
      rcases h with h | h
      · refine Or.inr (Or.inl ⟨d :: hx, l1, ⟨d, hx, rfl, hd, hne, hhex⟩,
          atEnd_shape h, ?_⟩)
        rw [ht]; simp
      · rcases h2 : dropSeg l1 with _ | l2
        · rw [h2] at h; simp at h
        · rw [h2] at h
          obtain ⟨d2, hx2, ht2, hd2, hne2, hhex2⟩ := dropSeg_sound h2
          refine Or.inr (Or.inr ⟨d :: hx, d2 :: hx2, l2,
            ⟨d, hx, rfl, hd, hne, hhex⟩, ⟨d2, hx2, rfl, hd2, hne2, hhex2⟩,
            atEnd_shape h, ?_⟩)
          rw [ht, ht2]; simp

theorem suffixMatch_seg1 {g e : List Char} (hg : SegShape g) (he : EndShape e) :
    suffixMatch (g ++ e) = true := by
  obtain ⟨d, hx, rfl, hd, hne, hhex⟩ := hg
  have hds : dropSeg (d :: (hx ++ e)) = some e := by
    refine dropSeg_of_seg hd hne hhex ?_
    rcases he with he | he <;> subst he
    · exact Or.inl rfl
    · exact Or.inr ⟨'\n', [], rfl, by decide⟩
  rw [suffixMatch, List.cons_append]
  simp [hds, endShape_atEnd he]

theorem suffixMatch_seg2 {g1 g2 e : List Char} (hg1 : SegShape g1)
    (hg2 : SegShape g2) (he : EndShape e) :
    suffixMatch (g1 ++ g2 ++ e) = true := by
  obtain ⟨d, hx, rfl, hd, hne, hhex⟩ := hg1
  obtain ⟨d2, hx2, rfl, hd2, hne2, hhex2⟩ := hg2
  have hds : dropSeg (d :: (hx ++ (d2 :: (hx2 ++ e)))) = some (d2 :: (hx2 ++ e)) :=
    dropSeg_of_seg hd hne hhex
      (Or.inr ⟨d2, hx2 ++ e, by simp, sep_not_hex hd2⟩)
  have hds2 : dropSeg (d2 :: (hx2 ++ e)) = some e := by
    refine dropSeg_of_seg hd2 hne2 hhex2 ?_
    rcases he with he | he <;> subst he
    · exact Or.inl rfl
    · exact Or.inr ⟨'\n', [], rfl, by decide⟩
  rw [suffixMatch]
  simp only [List.append_assoc, List.cons_append]
  simp [hds, hds2, endShape_atEnd he]

theorem matchSid_sound :
    ∀ {r sd : List Char}, matchSid r = some sd →
      sd ≠ [] ∧ (∀ c ∈ sd, c ≠ '\n') ∧
        ∃ t, r = sd ++ t ∧ suffixMatch t = true := by
  intro r
  induction r with
  | nil => intro sd h; simp [matchSid] at h
  | cons c rest ih =>
    intro sd h
    rw [matchSid] at h
    by_cases hc : c = '\n'
    · rw [if_pos hc] at h; simp at h
    · rw [if_neg hc] at h
      by_cases hs : suffixMatch rest
      · rw [if_pos hs] at h
        rw [Option.some_inj] at h
        subst h
        exact ⟨by simp, by simpa using hc, rest, rfl, hs⟩
      · rw [if_neg hs] at h
        rcases hm : matchSid rest with _ | sd'
        · rw [hm] at h; simp at h
        · rw [hm] at h
          simp only [Option.map_some', Option.some_inj] at h
          subst h
          obtain ⟨hne, hnl, t, hrt, hsm⟩ := ih hm
          refine ⟨by simp, ?_, t, by rw [hrt]; simp, hsm⟩
          intro x hx
          rcases List.mem_cons.mp hx with hx | hx
          · rw [hx]; exact hc
          · exact hnl x hx

theorem matchSid_min :
    ∀ {r sd : List Char}, matchSid r = some sd →
      ∀ j, 0 < j → j < sd.length → suffixMatch (r.drop j) = false := by
  intro r
  induction r with
  | nil => intro sd h; simp [matchSid] at h
  | cons c rest ih =>
    intro sd h j hj hjs
    rw [matchSid] at h
    by_cases hc : c = '\n'
    · rw [if_pos hc] at h; simp at h
    · rw [if_neg hc] at h
      by_cases hs : suffixMatch rest
      · rw [if_pos hs] at h
        rw [Option.some_inj] at h
        subst h
        simp at hjs
        omega
      · rw [if_neg hs] at h
        rcases hm : matchSid rest with _ | sd'
        · rw [hm] at h; simp at h
        · rw [hm] at h
          simp only [Option.map_some', Option.some_inj] at h
          subst h
          match j, hj with
          | 1, _ =>
            rw [List.drop_succ_cons, List.drop_zero]
            exact Bool.not_eq_true _ ▸ (by simpa using hs)
          | (k+2), _ =>
            rw [List.drop_succ_cons]
            exact ih hm (k+1) (by omega) (by simp at hjs; omega)

theorem matchSid_isSome_cons {z : List Char} {c : Char} (hc : c ≠ '\n')
    (h : (matchSid z).isSome) : (matchSid (c :: z)).isSome := by
  rw [matchSid, if_neg hc]
  by_cases hs : suffixMatch z
  · rw [if_pos hs]; simp
  · rw [if_neg hs]
    rcases hm : matchSid z with _ | sd
    · rw [hm] at h; simp at h
    · simp

theorem matchSid_isSome_append :
    ∀ {a z : List Char}, (∀ c ∈ a, c ≠ '\n') → (matchSid z).isSome →
      (matchSid (a ++ z)).isSome := by
  intro a
  induction a with
  | nil => intro z _ h; simpa using h
  | cons c a' ih =>
    intro z ha h
    rw [List.cons_append]
    exact matchSid_isSome_cons (ha c (List.mem_cons_self c a'))
      (ih (fun x hx => ha x (List.mem_cons_of_mem c hx)) h)

theorem matchRealmSid_sound :
    ∀ {r : List Char} {rl sd : List Char},
      matchRealmSid r = some (rl, sd) →
      ':' ∉ rl ∧ '\n' ∉ rl ∧
        ∃ rest, r = rl ++ ':' :: rest ∧ matchSid rest = some sd := by
  intro r
  induction r with
  | nil => intro rl sd h; simp [matchRealmSid] at h
  | cons c rest ih =>
    intro rl sd h
    rw [matchRealmSid] at h
    rcases hfirst : (if c = ':' then matchSid rest else none) with _ | sd'
    · rw [hfirst] at h
      by_cases hc : c = '\n'
      · rw [if_pos hc] at h; simp at h
      · rw [if_neg hc] at h
        rcases hm : matchRealmSid rest with _ | ⟨rl1, sd1⟩
        · rw [hm] at h; simp at h
        · rw [hm] at h
          simp only [Option.map_some', Option.some_inj, Prod.mk.injEq] at h
          obtain ⟨hrl, hsd⟩ := h
          obtain ⟨hnc, hnn, rest2, hdec, hms⟩ := ih hm
          have hcne : c ≠ ':' := by
            intro hcc
            rw [if_pos hcc] at hfirst
            have hz : (matchSid (':' :: rest2)).isSome :=
              matchSid_isSome_cons (by decide) (by rw [hms]; simp)
            have hsome : (matchSid rest).isSome := by
              rw [hdec]
              exact matchSid_isSome_append
                (fun x hx => fun he => hnn (he ▸ hx)) hz
            rw [hfirst] at hsome; simp at hsome
          subst hrl hsd
          refine ⟨?_, ?_, rest2, by rw [hdec]; simp, hms⟩
          · intro hmem
            rcases List.mem_cons.mp hmem with hx | hx
            · exact hcne hx.symm
            · exact hnc hx
          · intro hmem
            rcases List.mem_cons.mp hmem with hx | hx
            · exact hc hx.symm
            · exact hnn hx
    · rw [hfirst] at h
      rw [Option.some_inj] at h
      have hc : c = ':' := by
        by_contra hcc
        rw [if_neg hcc] at hfirst
        simp at hfirst
      rw [if_pos hc] at hfirst
      rw [Prod.mk.injEq] at h
      obtain ⟨hrl, hsd⟩ := h
      subst hc
      refine ⟨?_, ?_, rest, ?_, ?_⟩
      · rw [← hrl]; simp
      · rw [← hrl]; simp
      · rw [← hrl]; simp
      · rw [hsd] at hfirst; exact hfirst

theorem matchSessionId_sound {s : List Char} {u : SessionURI}
    (h : matchSessionId s = some u) :
    (u.type = ("ANON".toList) ∨ u.type = ("AUTH".toList)) ∧
    ':' ∉ u.realm ∧ '\n' ∉ u.realm ∧ u.session_id ≠ [] ∧
    (∀ c ∈ u.session_id, c ≠ '\n') ∧
    ∃ t, s = ("SID:".toList) ++ u.type ++ ':' :: (u.realm ++ ':' :: (u.session_id ++ t)) ∧
      suffixMatch t = true ∧ matchSid (u.session_id ++ t) = some u.session_id := by
  rw [matchSessionId] at h
  by_cases h1 : ("SID:ANON:".toList).isPrefixOf s
  · rw [if_pos h1] at h
    obtain ⟨w, hw⟩ := List.isPrefixOf_iff_prefix.mp h1
    have hdrop : s.drop 9 = w := by
      rw [← hw]; exact List.drop_left' rfl
    rw [hdrop] at h
    rcases hm : matchRealmSid w with _ | ⟨rl, sd⟩
    · rw [hm] at h; simp at h
    · rw [hm] at h
      simp only [Option.map_some', Option.some_inj] at h
      subst h
      obtain ⟨hnc, hnn, rest, hw2, hms⟩ := matchRealmSid_sound hm
      obtain ⟨hne, hnl, t, hrest, hsm⟩ := matchSid_sound hms
      refine ⟨Or.inl rfl, hnc, hnn, hne, hnl, t, ?_, hsm, by rw [← hrest]; exact hms⟩
      rw [← hw, hw2, hrest]
      rfl
  · rw [if_neg h1] at h
    by_cases h2 : ("SID:AUTH:".toList).isPrefixOf s
    · rw [if_pos h2] at h
      obtain ⟨w, hw⟩ := List.isPrefixOf_iff_prefix.mp h2
      have hdrop : s.drop 9 = w := by
        rw [← hw]; exact List.drop_left' rfl
      rw [hdrop] at h
      rcases hm : matchRealmSid w with _ | ⟨rl, sd⟩
      · rw [hm] at h; simp at h
      · rw [hm] at h
        simp only [Option.map_some', Option.some_inj] at h
        subst h
        obtain ⟨hnc, hnn, rest, hw2, hms⟩ := matchRealmSid_sound hm
        obtain ⟨hne, hnl, t, hrest, hsm⟩ := matchSid_sound hms
        refine ⟨Or.inr rfl, hnc, hnn, hne, hnl, t, ?_, hsm, by rw [← hrest]; exact hms⟩
        rw [← hw, hw2, hrest]
        rfl
    · rw [if_neg h2] at h; simp at h

theorem hex_not_sep {c : Char} (h : isHexChar c = true) : isSepChar c = false := by
  rcases hsep : isSepChar c with _ | _
  · rfl
  · rw [sep_not_hex hsep] at h; simp at h

theorem revSegAfterHex_append {u : List Char} {d : Char} (hd : isSepChar d = true) :
    ∀ {hr : List Char}, (∀ c ∈ hr, isHexChar c = true) →
      revSegAfterHex (hr ++ d :: u) = true := by
  intro hr
  induction hr with
  | nil => intro _; rw [List.nil_append, revSegAfterHex, if_pos hd]
  | cons c hr' ih =>
    intro hhex
    rw [List.cons_append, revSegAfterHex,
      if_neg (by simp [hex_not_sep (hhex c (List.mem_cons_self c hr'))]),
      hhex c (List.mem_cons_self c hr'),
      ih (fun x hx => hhex x (List.mem_cons_of_mem c hx))]
    rfl

theorem endsWithHexSeg_intro {u : List Char} {d : Char} {hx : List Char}
    (hd : isSepChar d = true) (hne : hx ≠ [])
    (hhex : ∀ c ∈ hx, isHexChar c = true) :
    endsWithHexSeg (u ++ d :: hx) = true := by
  rw [endsWithHexSeg, List.reverse_append, List.reverse_cons, List.append_assoc,
    List.singleton_append]
  cases hxr : hx.reverse with
  | nil => exact absurd (by simpa using hxr) hne
  | cons c hr' =>
    have hcm : c ∈ hx := by
      rw [← List.mem_reverse, hxr]; exact List.mem_cons_self c hr'
    rw [List.cons_append, revEndsSeg, hhex c hcm,
      revSegAfterHex_append hd (fun x hx' => hhex x (by
        rw [← List.mem_reverse, hxr]; exact List.mem_cons_of_mem c hx'))]
    rfl

theorem revSegAfterHex_elim :
    ∀ {m : List Char}, revSegAfterHex m = true →
      ∃ hr d u', m = hr ++ d :: u' ∧ (∀ c ∈ hr, isHexChar c = true) ∧
        isSepChar d = true := by
  intro m
  induction m with
  | nil => intro h; simp [revSegAfterHex] at h
  | cons x rest ih =>
    intro h
    rw [revSegAfterHex] at h
    by_cases hx : isSepChar x
    · exact ⟨[], x, rest, by simp, by simp, hx⟩
    · rw [if_neg hx, Bool.and_eq_true] at h
      obtain ⟨hr, d, u', hm, hhex, hd⟩ := ih h.2
      refine ⟨x :: hr, d, u', by rw [hm]; rfl, ?_, hd⟩
      intro c hc
      rcases List.mem_cons.mp hc with hc | hc
      · rw [hc]; exact h.1
      · exact hhex c hc

theorem endsWithHexSeg_elim {l : List Char} (h : endsWithHexSeg l = true) :
    ∃ u d hx, l = u ++ d :: hx ∧ isSepChar d = true ∧ hx ≠ [] ∧
      ∀ c ∈ hx, isHexChar c = true := by
  rw [endsWithHexSeg] at h
  rcases hrev : l.reverse with _ | ⟨c, rest⟩
  · rw [hrev] at h; simp [revEndsSeg] at h
  · rw [hrev, revEndsSeg, Bool.and_eq_true] at h
    obtain ⟨hr, d, u', hm, hhex, hd⟩ := revSegAfterHex_elim h.2
    have hl : l = u'.reverse ++ d :: (hr.reverse ++ [c]) := by
      have : l.reverse.reverse = l := List.reverse_reverse l
      rw [hrev, hm] at this
      rw [← this]
      simp
    refine ⟨u'.reverse, d, hr.reverse ++ [c], hl, hd, by simp, ?_⟩
    intro x hx
    rcases List.mem_append.mp hx with hx | hx
    · exact hhex x (List.mem_reverse.mp hx)
    · rw [List.mem_singleton.mp hx]; exact h.1

theorem endsWithHexSeg_cons {rest : List Char} {c : Char}
    (h : endsWithHexSeg rest = true) : endsWithHexSeg (c :: rest) = true := by
  obtain ⟨u, d, hx, hm, hd, hne, hhex⟩ := endsWithHexSeg_elim h
  rw [hm, ← List.cons_append]
  exact endsWithHexSeg_intro hd hne hhex

theorem matchSid_self :
    ∀ {sd : List Char}, sd ≠ [] → (∀ c ∈ sd, c ≠ '\n') →
      endsWithHexSeg sd = false → matchSid sd = some sd := by
  intro sd
  induction sd with
  | nil => intro h _ _; exact absurd rfl h
  | cons c rest ih =>
    intro _ hnl hends
    rw [matchSid, if_neg (hnl c (List.mem_cons_self c rest))]
    by_cases hr : rest = []
    · subst hr
      rw [if_pos (by decide)]
    · have hnlr : '\n' ∉ rest := fun hmem =>
        hnl '\n' (List.mem_cons_of_mem c hmem) rfl
      have hsm : suffixMatch rest = false := by
        rcases hb : suffixMatch rest with _ | _
        · rfl
        · exfalso
          rcases suffixMatch_sound hb with hsh | hsh | hsh
          · rcases hsh with hsh | hsh
            · exact hr hsh
            · exact hnlr (by rw [hsh]; exact List.mem_singleton.mpr rfl)
          · obtain ⟨g, e, ⟨d, hx, hg, hd, hne, hhex⟩, he, ht⟩ := hsh
            rcases he with he | he
            · subst he
              rw [List.append_nil] at ht
              have : endsWithHexSeg rest = true := by
                rw [ht, hg, ← List.nil_append (d :: hx)]
                exact endsWithHexSeg_intro hd hne hhex
              rw [endsWithHexSeg_cons this] at hends
              simp at hends
            · subst he
              exact hnlr (by
                rw [ht]
                exact List.mem_append.mpr (Or.inr (List.mem_singleton.mpr rfl)))
          · obtain ⟨g1, g2, e, hg1, ⟨d2, hx2, hg2, hd2, hne2, hhex2⟩, he, ht⟩ := hsh
            rcases he with he | he
            · subst he
              rw [List.append_nil] at ht
              have : endsWithHexSeg rest = true := by
                rw [ht, hg2]
                exact endsWithHexSeg_intro hd2 hne2 hhex2
              rw [endsWithHexSeg_cons this] at hends
              simp at hends
            · subst he
              exact hnlr (by
                rw [ht]
                exact List.mem_append.mpr (Or.inr (List.mem_singleton.mpr rfl)))
      have hends' : endsWithHexSeg rest = false := by
        rcases hb : endsWithHexSeg rest with _ | _
        · rfl
        · rw [endsWithHexSeg_cons hb] at hends; simp at hends
      rw [if_neg (by simp [hsm]),
        ih hr (fun x hx => hnl x (List.mem_cons_of_mem c hx)) hends']
      rfl

theorem matchRealmSid_self :
    ∀ {rl sd : List Char}, ':' ∉ rl → '\n' ∉ rl → matchSid sd = some sd →
      matchRealmSid (rl ++ ':' :: sd) = some (rl, sd) := by
  intro rl
  induction rl with
  | nil =>
    intro sd _ _ hm
    rw [List.nil_append, matchRealmSid, if_pos rfl, hm]
  | cons c rl' ih =>
    intro sd hc hn hm
    have hcc : c ≠ ':' := fun he => hc (he ▸ List.mem_cons_self c rl')
    have hcn : c ≠ '\n' := fun he => hn (he ▸ List.mem_cons_self c rl')
    rw [List.cons_append, matchRealmSid, if_neg hcc]
    have ihh := ih (fun hmem => hc (List.mem_cons_of_mem c hmem))
      (fun hmem => hn (List.mem_cons_of_mem c hmem)) hm
    rw [ihh]
    simp [hcn]

theorem parse_canonical {ty rl sd : List Char}
    (hty : ty = ("ANON".toList) ∨ ty = ("AUTH".toList))
    (hrc : ':' ∉ rl) (hrn : '\n' ∉ rl) (hsd : sd ≠ [])
    (hsn : ∀ c ∈ sd, c ≠ '\n') (hends : endsWithHexSeg sd = false) :
    matchSessionId (("SID:".toList) ++ ty ++ ':' :: (rl ++ ':' :: sd)) =
      some ⟨ty, rl, sd⟩ := by
  have hms := matchSid_self hsd hsn hends
  have hrs := matchRealmSid_self hrc hrn hms
  rcases hty with hty | hty <;> subst hty
  · have hpre : ("SID:ANON:".toList).isPrefixOf
        (("SID:".toList) ++ ("ANON".toList) ++ ':' :: (rl ++ ':' :: sd)) = true := by
      apply List.isPrefixOf_iff_prefix.mpr
      exact ⟨rl ++ ':' :: sd, rfl⟩
    rw [matchSessionId, if_pos hpre]
    have hdrop : ((("SID:".toList) ++ ("ANON".toList) ++ ':' :: (rl ++ ':' :: sd))).drop 9
        = rl ++ ':' :: sd := by
      show (("SID:ANON:".toList) ++ (rl ++ ':' :: sd)).drop 9 = rl ++ ':' :: sd
      exact List.drop_left' rfl
    rw [hdrop, hrs]
    rfl
  · have hnpre : ("SID:ANON:".toList).isPrefixOf
        (("SID:".toList) ++ ("AUTH".toList) ++ ':' :: (rl ++ ':' :: sd)) = false := by
      rcases hb : ("SID:ANON:".toList).isPrefixOf
          (("SID:".toList) ++ ("AUTH".toList) ++ ':' :: (rl ++ ':' :: sd)) with _ | _
      · rfl
      · exfalso
        obtain ⟨w, hw⟩ := List.isPrefixOf_iff_prefix.mp hb
        have hw' : ("SID:ANON:".toList) ++ w
            = ("SID:AUTH:".toList) ++ (rl ++ ':' :: sd) := hw
        have ha : (("SID:ANON:".toList) ++ w).take 9 = ("SID:ANON:".toList) :=
          List.take_left' rfl
        have hb2 : (("SID:AUTH:".toList) ++ (rl ++ ':' :: sd)).take 9
            = ("SID:AUTH:".toList) := List.take_left' rfl
        rw [hw', hb2] at ha
        exact absurd ha (by decide)
    have hpre : ("SID:AUTH:".toList).isPrefixOf
        (("SID:".toList) ++ ("AUTH".toList) ++ ':' :: (rl ++ ':' :: sd)) = true := by
      apply List.isPrefixOf_iff_prefix.mpr
      exact ⟨rl ++ ':' :: sd, rfl⟩
    rw [matchSessionId, if_neg (by simp [hnpre]), if_pos hpre]
    have hdrop : ((("SID:".toList) ++ ("AUTH".toList) ++ ':' :: (rl ++ ':' :: sd))).drop 9
        = rl ++ ':' :: sd := by
      show (("SID:AUTH:".toList) ++ (rl ++ ':' :: sd)).drop 9 = rl ++ ':' :: sd
      exact List.drop_left' rfl
    rw [hdrop, hrs]
    rfl

theorem colon_free_split :
    ∀ {a : List Char} {b x y : List Char}, ':' ∉ a → ':' ∉ b →
      a ++ ':' :: x = b ++ ':' :: y → a = b ∧ x = y := by
  intro a
  induction a with
  | nil =>
    intro b x y _ hb h
    cases b with
    | nil =>
      rw [List.nil_append, List.nil_append] at h
      injection h with _ h2
      exact ⟨rfl, h2⟩
    | cons c b' =>
      rw [List.nil_append, List.cons_append] at h
      injection h with h1 _
      exact absurd (h1 ▸ List.mem_cons_self c b') hb
  | cons c a' ih =>
    intro b x y ha hb h
    cases b with
    | nil =>
      rw [List.cons_append, List.nil_append] at h
      injection h with h1 _
      exact absurd (h1 ▸ List.mem_cons_self c a') ha
    | cons d b' =>
      rw [List.cons_append, List.cons_append] at h
      injection h with h1 h2
      obtain ⟨hab, hxy⟩ := ih (fun hm => ha (List.mem_cons_of_mem c hm))
        (fun hm => hb (List.mem_cons_of_mem d hm)) h2
      exact ⟨by rw [h1, hab], hxy⟩

/-- C1 counterexample: on `SID:ANON::a-1-2-3` the parser strips the two
rightmost suffixes, leaving session id `a-1`; re-parsing the rendered result
`SID:ANON::a-1` strips again, down to `a`.  Suffix-stripping is therefore not
idempotent as the claim states. -/
theorem c1_counterexample :
    matchSessionId ("SID:ANON::a-1-2-3".toList) =
      some ⟨"ANON".toList, [], "a-1".toList⟩ ∧
    render_session_header ⟨"ANON".toList, [], "a-1".toList⟩ =
      ("SID:ANON::a-1".toList) ∧
    matchSessionId ("SID:ANON::a-1".toList) =
      some ⟨"ANON".toList, [], "a".toList⟩ ∧
    ("a".toList) ≠ ("a-1".toList) :=
  ⟨by decide, by decide, by decide, by decide⟩

/-- C1 (amended): for every accepted input the parser strips at most two
trailing separator-plus-hex segments (plus at most a final newline admitted
by the regex's end anchor), and re-parsing the rendered result strips nothing
further *provided* the extracted session id does not itself end in a
separator-plus-hex segment.  (Without that proviso idempotence fails, see the
counterexample.) -/
theorem c1_suffix_strip_bounded_and_conditionally_idempotent
    {s : List Char} {u : SessionURI} (h : matchSessionId s = some u) :
    (∃ t, s = render_session_header u ++ t ∧ SuffixShape t) ∧
    (endsWithHexSeg u.session_id = false →
      matchSessionId (render_session_header u) = some u) := by
  obtain ⟨hty, hnc, hnn, hne, hnl, t, hs, hsm, _⟩ := matchSessionId_sound h
  have heq : render_session_header u =
      ("SID:".toList) ++ u.type ++ ':' :: (u.realm ++ ':' :: u.session_id) := by
    rw [render_session_header]
    simp [List.append_assoc]
  constructor
  · refine ⟨t, ?_, suffixMatch_sound hsm⟩
    rw [hs, heq]
    simp [List.append_assoc]
  · intro hends
    rw [heq]
    exact parse_canonical hty hnc hnn hne hnl hends

/-- Witness for C1 at the spec's worked example. -/
theorem c1_witness :
    matchSessionId (render_session_header
        ⟨"ANON".toList, "example.com".toList, "987171879".toList⟩) =
      some ⟨"ANON".toList, "example.com".toList, "987171879".toList⟩ :=
  (@c1_suffix_strip_bounded_and_conditionally_idempotent
      ("SID:ANON:example.com:987171879-16EF".toList)
      ⟨"ANON".toList, "example.com".toList, "987171879".toList⟩
      (by decide)).2 (by decide)

/-- C3: the parser returns `None` for an absent header, the empty string,
strings missing the `SID:` prefix, strings whose type segment is not the
case-sensitive literal `ANON` or `AUTH`, and strings with fewer than three
colons.  The embedding is a total function, so no exception is possible. -/
theorem c3_nonmatching_inputs_give_none
    (req : Request) (s ty r2 : List Char) :
    (req.http_session_id = none → parse_session_id req = none) ∧
    (matchSessionId [] = none) ∧
    (¬ (("SID:".toList) <+: s) → matchSessionId s = none) ∧
    (s = ("SID:".toList) ++ ty ++ ':' :: r2 → ':' ∉ ty →
      ty ≠ ("ANON".toList) → ty ≠ ("AUTH".toList) → matchSessionId s = none) ∧
    (s.count ':' < 3 → matchSessionId s = none) := by
  refine ⟨?_, by decide, ?_, ?_, ?_⟩
  · intro h; rw [parse_session_id, h]
  · intro hnp
    rw [matchSessionId]
    rw [if_neg ?_, if_neg ?_]
    · intro hp
      exact hnp (List.IsPrefix.trans (by decide) (List.isPrefixOf_iff_prefix.mp hp))
    · intro hp
      exact hnp (List.IsPrefix.trans (by decide) (List.isPrefixOf_iff_prefix.mp hp))
  · intro hse hcf hna hnu
    rw [matchSessionId]
    rw [if_neg ?_, if_neg ?_]
    · intro hp
      obtain ⟨w, hw⟩ := List.isPrefixOf_iff_prefix.mp hp
      have hw2 : ("SID:".toList) ++ (("AUTH".toList) ++ ':' :: w) = s := hw
      have hse2 : s = ("SID:".toList) ++ (ty ++ ':' :: r2) := by
        rw [hse, List.append_assoc]
      have hw' : ("SID:".toList) ++ (("AUTH".toList) ++ ':' :: w)
          = ("SID:".toList) ++ (ty ++ ':' :: r2) := hw2.trans hse2
      have := (colon_free_split (by decide) hcf
        (List.append_cancel_left hw')).1
      exact hnu this.symm
    · intro hp
      obtain ⟨w, hw⟩ := List.isPrefixOf_iff_prefix.mp hp
      have hw2 : ("SID:".toList) ++ (("ANON".toList) ++ ':' :: w) = s := hw
      have hse2 : s = ("SID:".toList) ++ (ty ++ ':' :: r2) := by
        rw [hse, List.append_assoc]
      have hw' : ("SID:".toList) ++ (("ANON".toList) ++ ':' :: w)
          = ("SID:".toList) ++ (ty ++ ':' :: r2) := hw2.trans hse2
      have := (colon_free_split (by decide) hcf
        (List.append_cancel_left hw')).1
      exact hna this.symm
  · intro hcount
    rcases hm : matchSessionId s with _ | u
    · rfl
    · exfalso
      obtain ⟨hty, _, _, _, _, t, hs, _, _⟩ := matchSessionId_sound hm
      have hS : (("SID:".toList).count ':') = 1 := by decide
      have hA : (u.type.count ':') = 0 := by
        rcases hty with h | h <;> rw [h] <;> decide
      rw [hs] at hcount
      simp [List.count_append, List.count_cons, hS, hA] at hcount
      omega

/-- Witness for C3 on the source's own doctest inputs. -/
theorem c3_witness :
    matchSessionId ("ENTIREGABRBAGE".toList) = none ∧
    matchSessionId ("SID:BULLSHIT:example.com:987171879".toList) = none ∧
    matchSessionId ("SID:ANON:987171879".toList) = none := by
  refine ⟨?_, ?_, ?_⟩
  · exact (c3_nonmatching_inputs_give_none
      (Request.mk [] [] none [] []) ("ENTIREGABRBAGE".toList) [] []).2.2.1
      (by decide)
  · exact (c3_nonmatching_inputs_give_none
      (Request.mk [] [] none [] []) ("SID:BULLSHIT:example.com:987171879".toList)
      ("BULLSHIT".toList) ("example.com:987171879".toList)).2.2.2.1
      (by decide) (by decide) (by decide) (by decide)
  · exact (c3_nonmatching_inputs_give_none
      (Request.mk [] [] none [] []) ("SID:ANON:987171879".toList) [] []).2.2.2.2
      (by decide)

/-- C4 counterexample: the claim quantifies over *every* realm, but a realm
containing a colon is not recovered.  For type `ANON`, realm `a:b`, session
id `c` (non-empty, no trailing hex suffix), the assembled string is
`SID:ANON:a:b:c`, which parses to realm `a` and session id `b` (the `:c` tail
is stripped as a hex suffix, `c` being a hex digit). -/
theorem c4_counterexample :
    endsWithHexSeg ("c".toList) = false ∧
    matchSessionId ("SID:ANON:a:b:c".toList) =
      some ⟨"ANON".toList, "a".toList, "b".toList⟩ ∧
    ¬ (("a".toList) = ("a:b".toList) ∧ ("b".toList) = ("c".toList)) :=
  ⟨by decide, by decide, by decide⟩

/-- C4 (amended): for type `ANON` or `AUTH`, every realm containing neither
`':'` nor `'\n'`, and every non-empty session id containing no `'\n'` and not
ending in a separator-plus-hex segment, parsing the assembled wire string
recovers exactly the original three fields. -/
theorem c4_parse_recovers_fields {ty rl sd : List Char}
    (hty : ty = ("ANON".toList) ∨ ty = ("AUTH".toList))
    (hrc : ':' ∉ rl) (hrn : '\n' ∉ rl) (hsd : sd ≠ []) (hsn : '\n' ∉ sd)
    (hends : endsWithHexSeg sd = false) :
    matchSessionId (("SID:".toList) ++ ty ++ ':' :: (rl ++ ':' :: sd)) =
      some ⟨ty, rl, sd⟩ :=
  parse_canonical hty hrc hrn hsd (fun _ hc he => hsn (he ▸ hc)) hends

/-- Witness for C4 at the spec's worked example. -/
theorem c4_witness :
    matchSessionId ("SID:AUTH:example.com:987171879".toList) =
      some ⟨"AUTH".toList, "example.com".toList, "987171879".toList⟩ :=
  @c4_parse_recovers_fields ("AUTH".toList) ("example.com".toList)
    ("987171879".toList) (Or.inr rfl) (by decide) (by decide) (by decide)
    (by decide) (by decide)

theorem process_request_mismatch_eq
    (store : List Char → Option Session) (req : Request) (u : SessionURI)
    (hapi : is_api_request req = true) (hp : parse_session_id req = some u)
    (hne : u.realm ≠ req.domain) :
    HeaderSessionMiddleware.process_request store req =
      ReqOutcome.mk
        (ReqAction.response (HttpResp.mk 406
          (format_reason (realm_mismatch_detail u.realm req.domain))
          ("application/json".toList)))
        none none false 0 := by
  rw [HeaderSessionMiddleware.process_request, if_pos hapi, hp]
  simp only [ne_eq]
  rw [if_pos hne]
  rfl

/-- C5: on an API-namespace request whose parsed reference's realm differs
from the request's domain, the orchestrator short-circuits with the 406 JSON
mismatch response; the resumer observes zero calls, nothing is bound on the
request, and downstream handling never runs (an error response is returned
instead of `None`). -/
theorem c5_realm_mismatch_short_circuits
    (store : List Char → Option Session) (req : Request) (u : SessionURI)
    (hapi : is_api_request req = true) (hp : parse_session_id req = some u)
    (hne : u.realm ≠ req.domain) :
    HeaderSessionMiddleware.process_request store req =
      ReqOutcome.mk
        (ReqAction.response (HttpResp.mk 406
          (format_reason (realm_mismatch_detail u.realm req.domain))
          ("application/json".toList)))
        none none false 0 :=
  process_request_mismatch_eq store req u hapi hp hne

/-- Witness for C5: end-to-end scenario 3 of the spec (`SID:ANON:other.com:1`
against domain `example.com`). -/
theorem c5_witness :
    HeaderSessionMiddleware.process_request (fun _ => none)
        (Request.mk ("/api/x".toList) ("/api/".toList)
          (some ("SID:ANON:other.com:1".toList)) ("example.com".toList) []) =
      ReqOutcome.mk
        (ReqAction.response (HttpResp.mk 406
          (format_reason (realm_mismatch_detail ("other.com".toList)
            ("example.com".toList)))
          ("application/json".toList)))
        none none false 0 :=
  c5_realm_mismatch_short_circuits (fun _ => none)
    (Request.mk ("/api/x".toList) ("/api/".toList)
      (some ("SID:ANON:other.com:1".toList)) ("example.com".toList) [])
    ⟨"ANON".toList, "other.com".toList, "1".toList⟩
    (by decide) (by decide) (by decide)

/-- C6: the resume policy is type-dependent.  With no session stored under
the requested id, an `ANON` reference yields a freshly created session whose
key equals the requested id (no error), while an `AUTH` reference fails with
SessionNotFound and never creates a session. -/
theorem c6_resume_policy (store : List Char → Option Session)
    (sid : List Char) (h : store sid = none) :
    start_or_resume store sid ("ANON".toList) = Except.ok (Session.mk sid true) ∧
    start_or_resume store sid ("AUTH".toList) =
      Except.error ApiExc.sessionNotFound := by
  constructor
  · rw [start_or_resume, if_pos rfl, get_session, h]
    rfl
  · rw [start_or_resume, if_neg (by decide), get_session, h]
    rfl

/-- Witness for C6: end-to-end scenario 2 of the spec (session id `XYZ`, no
such session in the store). -/
theorem c6_witness :
    start_or_resume (fun _ => none) ("XYZ".toList) ("ANON".toList) =
      Except.ok (Session.mk ("XYZ".toList) true) ∧
    start_or_resume (fun _ => none) ("XYZ".toList) ("AUTH".toList) =
      Except.error ApiExc.sessionNotFound :=
  c6_resume_policy (fun _ => none) ("XYZ".toList) rfl

/-- C7: the response-header writer is a no-op unless the request is API
traffic and both a session and the parsed reference are bound; when it runs
it first asserts `session.session_key == session_id_from_parsed_session_uri`,
failing fatally on violation, and otherwise writes the rendered header. -/
theorem c7_response_writer (req : Request) (sess : Option Session)
    (par : Option SessionURI) (s : Session) (u : SessionURI) :
    (is_api_request req = false →
      HeaderSessionMiddleware.process_response req sess par = RespAction.noop) ∧
    (HeaderSessionMiddleware.process_response req none par = RespAction.noop) ∧
    (HeaderSessionMiddleware.process_response req sess none = RespAction.noop) ∧
    (is_api_request req = true →
      s.session_key = session_id_from_parsed_session_uri u →
      HeaderSessionMiddleware.process_response req (some s) (some u) =
        RespAction.headerWritten (render_session_header u)) ∧
    (is_api_request req = true →
      s.session_key ≠ session_id_from_parsed_session_uri u →
      HeaderSessionMiddleware.process_response req (some s) (some u) =
        RespAction.assertionError
          (assert_message s.session_key (session_id_from_parsed_session_uri u))) := by
  refine ⟨?_, ?_, ?_, ?_, ?_⟩
  · intro hapi
    rw [HeaderSessionMiddleware.process_response.eq_def, if_neg (by simp [hapi])]
  · rw [HeaderSessionMiddleware.process_response.eq_def]
    by_cases hapi : is_api_request req = true
    · rw [if_pos hapi]
    · rw [if_neg hapi]
  · rw [HeaderSessionMiddleware.process_response.eq_def]
    by_cases hapi : is_api_request req = true
    · rw [if_pos hapi]
      cases sess <;> rfl
    · rw [if_neg hapi]
  · intro hapi hk
    rw [HeaderSessionMiddleware.process_response.eq_def, if_pos hapi]
    show (if s.session_key = session_id_from_parsed_session_uri u then
        RespAction.headerWritten (render_session_header u)
      else
        RespAction.assertionError
          (assert_message s.session_key (session_id_from_parsed_session_uri u))) = _
    rw [if_pos hk]
  · intro hapi hk
    rw [HeaderSessionMiddleware.process_response.eq_def, if_pos hapi]
    show (if s.session_key = session_id_from_parsed_session_uri u then
        RespAction.headerWritten (render_session_header u)
      else
        RespAction.assertionError
          (assert_message s.session_key (session_id_from_parsed_session_uri u))) = _
    rw [if_neg hk]

/-- Witness for C7: end-to-end scenario 1 of the spec — a bound anonymous
session with matching key gets the canonical header written. -/
theorem c7_witness :
    HeaderSessionMiddleware.process_response
        (Request.mk ("/api/x".toList) ("/api/".toList)
          (some ("SID:ANON:example.com:987171879".toList))
          ("example.com".toList) [])
        (some (Session.mk ("987171879".toList) true))
        (some ⟨"ANON".toList, "example.com".toList, "987171879".toList⟩) =
      RespAction.headerWritten
        (render_session_header
          ⟨"ANON".toList, "example.com".toList, "987171879".toList⟩) :=
  (c7_response_writer
      (Request.mk ("/api/x".toList) ("/api/".toList)
        (some ("SID:ANON:example.com:987171879".toList))
        ("example.com".toList) [])
      (some (Session.mk ("987171879".toList) true))
      (some ⟨"ANON".toList, "example.com".toList, "987171879".toList⟩)
      (Session.mk ("987171879".toList) true)
      ⟨"ANON".toList, "example.com".toList, "987171879".toList⟩).2.2.2.1
    (by decide) (by decide)

/-- C8: on an API-namespace request, an unknown (or absent, i.e. empty)
Authorization credential is rejected — logged, `PermissionDenied`
(403-equivalent) — before the orchestrator and hence before any session
logic runs; a credential present in the key registry lets the request
proceed unchanged to the orchestrator, the gateway adding no bindings. -/
theorem c8_gateway_check (known_keys : List Char → Bool)
    (store : List Char → Option Session) (req : Request)
    (hapi : is_api_request req = true) :
    (known_keys req.authorization = false →
      pipeline_process_request known_keys store req =
        PipelineOutcome.mk (GatewayResult.permissionDenied true) none) ∧
    (known_keys req.authorization = true →
      pipeline_process_request known_keys store req =
        PipelineOutcome.mk GatewayResult.allow
          (some (HeaderSessionMiddleware.process_request store req))) := by
  constructor
  · intro hk
    rw [pipeline_process_request, ApiGatewayMiddleWare.process_request,
      if_pos hapi, if_neg (by simp [hk])]
  · intro hk
    rw [pipeline_process_request, ApiGatewayMiddleWare.process_request,
      if_pos hapi, if_pos hk]

/-- Witness for C8: end-to-end scenario 4 (unknown credential denied before
the orchestrator) and its counterpart with a known credential. -/
theorem c8_witness :
    pipeline_process_request (fun _ => false) (fun _ => none)
        (Request.mk ("/api/x".toList) ("/api/".toList) none []
          ("badtoken".toList)) =
      PipelineOutcome.mk (GatewayResult.permissionDenied true) none ∧
    pipeline_process_request (fun _ => true) (fun _ => none)
        (Request.mk ("/api/x".toList) ("/api/".toList) none []
          ("goodtoken".toList)) =
      PipelineOutcome.mk GatewayResult.allow
        (some (HeaderSessionMiddleware.process_request (fun _ => none)
          (Request.mk ("/api/x".toList) ("/api/".toList) none []
            ("goodtoken".toList)))) :=
  ⟨(c8_gateway_check (fun _ => false) (fun _ => none)
      (Request.mk ("/api/x".toList) ("/api/".toList) none [] ("badtoken".toList))
      (by decide)).1 rfl,
    (c8_gateway_check (fun _ => true) (fun _ => none)
      (Request.mk ("/api/x".toList) ("/api/".toList) none [] ("goodtoken".toList))
      (by decide)).2 rfl⟩

/-- C9 counterexample: a gateway denial produces *no* JSON `reason` body in
this code — `raise PermissionDenied()` carries no detail, and the JSON body
template exists only in `HeaderSessionMiddleware`'s exception handler, which
a gateway denial never reaches.  So not every gateway-denial response body is
a JSON object with a `reason` field, contradicting the claim as stated. -/
theorem c9_counterexample :
    (pipeline_process_request (fun _ => false) (fun _ => none)
        (Request.mk ("/api/x".toList) ("/api/".toList) none []
          ("badtoken".toList))).gateway =
      GatewayResult.permissionDenied true ∧
    pipeline_error_body
      (pipeline_process_request (fun _ => false) (fun _ => none)
        (Request.mk ("/api/x".toList) ("/api/".toList) none []
          ("badtoken".toList))) = none :=
  ⟨by decide, by decide⟩

/-- C9 (amended): the realm-mismatch error response is a JSON object with a
single `reason` field built from the raised condition's detail, and its
status code is taken from the raised condition (406 for `NotAcceptable`), for
all realm and domain strings; a gateway denial, by contrast, raises a bare
403-equivalent `PermissionDenied` to which this code attaches no JSON body at
all. -/
theorem c9_error_response_bodies
    (store : List Char → Option Session) (req req2 : Request) (u : SessionURI)
    (known_keys : List Char → Bool)
    (hapi : is_api_request req = true) (hp : parse_session_id req = some u)
    (hne : u.realm ≠ req.domain)
    (hapi2 : is_api_request req2 = true)
    (hk : known_keys req2.authorization = false) :
    (HeaderSessionMiddleware.process_request store req).action =
      ReqAction.response (HttpResp.mk
        (ApiExc.notAcceptable (realm_mismatch_detail u.realm req.domain)).status_code
        (format_reason
          (ApiExc.notAcceptable (realm_mismatch_detail u.realm req.domain)).detail)
        ("application/json".toList)) ∧
    (ApiExc.notAcceptable (realm_mismatch_detail u.realm req.domain)).status_code
      = 406 ∧
    pipeline_process_request known_keys store req2 =
      PipelineOutcome.mk (GatewayResult.permissionDenied true) none ∧
    pipeline_error_body
      (pipeline_process_request known_keys store req2) = none := by
  refine ⟨?_, rfl, ?_, ?_⟩
  · rw [process_request_mismatch_eq store req u hapi hp hne]
    rfl
  · rw [pipeline_process_request, ApiGatewayMiddleWare.process_request,
      if_pos hapi2, if_neg (by simp [hk])]
  · rw [pipeline_process_request, ApiGatewayMiddleWare.process_request,
      if_pos hapi2, if_neg (by simp [hk])]
    rfl

/-- Witness for C9 at the spec's scenario-3 and scenario-4 inputs. -/
theorem c9_witness :
    (HeaderSessionMiddleware.process_request (fun _ => none)
        (Request.mk ("/api/x".toList) ("/api/".toList)
          (some ("SID:ANON:other.com:1".toList)) ("example.com".toList)
          [])).action =
      ReqAction.response (HttpResp.mk
        (ApiExc.notAcceptable (realm_mismatch_detail ("other.com".toList)
          ("example.com".toList))).status_code
        (format_reason (ApiExc.notAcceptable
          (realm_mismatch_detail ("other.com".toList)
            ("example.com".toList))).detail)
        ("application/json".toList)) :=
  (c9_error_response_bodies (fun _ => none)
    (Request.mk ("/api/x".toList) ("/api/".toList)
      (some ("SID:ANON:other.com:1".toList)) ("example.com".toList) [])
    (Request.mk ("/api/x".toList) ("/api/".toList) none [] ("bad".toList))
    ⟨"ANON".toList, "other.com".toList, "1".toList⟩
    (fun _ => false)
    (by decide) (by decide) (by decide) (by decide) rfl).1

/-- C10 (implicit): the realm-mismatch path is atomic with respect to request
state — the orchestrator binds no session, attaches no parsed reference, and
does not set the CSRF-exemption flag, since the raise precedes all three
assignments. -/
theorem c10_mismatch_request_unmodified
    (store : List Char → Option Session) (req : Request) (u : SessionURI)
    (hapi : is_api_request req = true) (hp : parse_session_id req = some u)
    (hne : u.realm ≠ req.domain) :
    (HeaderSessionMiddleware.process_request store req).boundSession = none ∧
    (HeaderSessionMiddleware.process_request store req).boundParsedUri = none ∧
    (HeaderSessionMiddleware.process_request store req).csrfExempt = false := by
  rw [process_request_mismatch_eq store req u hapi hp hne]
  exact ⟨rfl, rfl, rfl⟩

/-- Witness for C10 at the scenario-3 input. -/
theorem c10_witness :
    (HeaderSessionMiddleware.process_request (fun _ => none)
        (Request.mk ("/api/x".toList) ("/api/".toList)
          (some ("SID:ANON:other.com:1".toList)) ("example.com".toList)
          [])).csrfExempt = false :=
  (c10_mismatch_request_unmodified (fun _ => none)
    (Request.mk ("/api/x".toList) ("/api/".toList)
      (some ("SID:ANON:other.com:1".toList)) ("example.com".toList) [])
    ⟨"ANON".toList, "other.com".toList, "1".toList⟩
    (by decide) (by decide) (by decide)).2.2

theorem afterColon_append : ∀ {a b : List Char}, ':' ∉ a →
    afterColon (a ++ ':' :: b) = some b := by
  intro a
  induction a with
  | nil => intro b _; rw [List.nil_append, afterColon, if_pos rfl]
  | cons c a' ih =>
    intro b h
    rw [List.cons_append, afterColon,
      if_neg (fun he => h (List.mem_cons.mpr (Or.inl he.symm)))]
    exact ih (fun hm => h (List.mem_cons_of_mem c hm))

theorem afterThirdColon_decomp {ty rl Z : List Char}
    (hty : ty = ("ANON".toList) ∨ ty = ("AUTH".toList)) (hrc : ':' ∉ rl) :
    afterThirdColon (("SID:".toList) ++ ty ++ ':' :: (rl ++ ':' :: Z)) = some Z := by
  have hcf : ':' ∉ ty := by rcases hty with h | h <;> subst h <;> decide
  have h1 : afterColon (("SID:".toList) ++ ty ++ ':' :: (rl ++ ':' :: Z))
      = some (ty ++ ':' :: (rl ++ ':' :: Z)) :=
    @afterColon_append (['S', 'I', 'D']) (ty ++ ':' :: (rl ++ ':' :: Z)) (by decide)
  have h2 : afterColon (ty ++ ':' :: (rl ++ ':' :: Z)) = some (rl ++ ':' :: Z) :=
    afterColon_append hcf
  have h3 : afterColon (rl ++ ':' :: Z) = some Z := afterColon_append hrc
  rw [afterThirdColon, h1]
  simp only [Option.some_bind]
  rw [h2]
  simp only [Option.some_bind]
  exact h3

theorem all_of_dropWhile_nil {p : Char → Bool} :
    ∀ {l : List Char}, l.dropWhile p = [] → ∀ c ∈ l, p c = true := by
  intro l
  induction l with
  | nil => intro _ c hc; simp at hc
  | cons d l' ih =>
    intro h c hc
    rw [List.dropWhile_cons] at h
    by_cases hd : p d
    · rw [if_pos hd] at h
      rcases List.mem_cons.mp hc with hc | hc
      · rw [hc]; exact hd
      · exact ih h c hc
    · rw [if_neg hd] at h; simp at h

theorem dropWhile_head_not {p : Char → Bool} :
    ∀ {l : List Char} {c : Char} {r : List Char},
      l.dropWhile p = c :: r → p c = false := by
  intro l
  induction l with
  | nil => intro c r h; simp [List.dropWhile] at h
  | cons d l' ih =>
    intro c r h
    rw [List.dropWhile_cons] at h
    by_cases hd : p d
    · rw [if_pos hd] at h; exact ih h
    · rw [if_neg hd] at h
      injection h with h1 _
      rw [← h1]
      exact Bool.eq_false_iff.mpr hd

theorem stripHexSegEnd_strip {x g : List Char} (hg : SegShape g) :
    stripHexSegEnd (x ++ g) = some x := by
  obtain ⟨d, h, rfl, hd, hne, hhex⟩ := hg
  have hrev : (x ++ d :: h).reverse = h.reverse ++ d :: x.reverse := by simp
  have hallr : ∀ c ∈ h.reverse, isHexChar c = true :=
    fun c hc => hhex c (List.mem_reverse.mp hc)
  have htw : (h.reverse ++ d :: x.reverse).takeWhile isHexChar = h.reverse := by
    rw [takeWhile_append_of_all hallr, List.takeWhile_cons,
      if_neg (by simp [sep_not_hex hd])]
    simp
  have hdw : (h.reverse ++ d :: x.reverse).dropWhile isHexChar = d :: x.reverse := by
    rw [dropWhile_append_of_all hallr, List.dropWhile_cons,
      if_neg (by simp [sep_not_hex hd])]
  have hemp : h.reverse.isEmpty = false := by
    simpa using hne
  rw [stripHexSegEnd, hrev, htw, hdw, if_neg (by simp [hemp])]
  have hfin : (if isSepChar d then some x.reverse.reverse else none) = some x := by
    rw [if_pos hd, List.reverse_reverse]
  exact hfin

theorem stripGuard_strip {pre : Nat} {x g : List Char} (hg : SegShape g)
    (hlt : pre < x.length) : stripGuard pre (x ++ g) = x := by
  rw [stripGuard, stripHexSegEnd_strip hg]
  show (if pre < x.length then x else x ++ g) = x
  rw [if_pos hlt]

theorem stripHexSegEnd_boundary {X sd : List Char} (hne : sd ≠ [])
    (hmin : ∀ u d h, sd = u ++ d :: h → isSepChar d = true → h ≠ [] →
      (∀ c ∈ h, isHexChar c = true) → u = []) :
    ∀ v, stripHexSegEnd (X ++ ':' :: sd) = some v → v.length ≤ X.length + 1 := by
  intro v hst
  have hrev : (X ++ ':' :: sd).reverse = sd.reverse ++ ':' :: X.reverse := by simp
  rw [stripHexSegEnd, hrev] at hst
  rcases hdw : sd.reverse.dropWhile isHexChar with _ | ⟨d, y⟩
  · -- sd is all hex digits: the stripped separator is the third colon itself
    have hall : ∀ c ∈ sd.reverse, isHexChar c = true := all_of_dropWhile_nil hdw
    have htw : (sd.reverse ++ ':' :: X.reverse).takeWhile isHexChar = sd.reverse := by
      rw [takeWhile_append_of_all hall, List.takeWhile_cons, if_neg (by decide)]
      simp
    have hdw2 : (sd.reverse ++ ':' :: X.reverse).dropWhile isHexChar
        = ':' :: X.reverse := by
      rw [dropWhile_append_of_all hall, List.dropWhile_cons, if_neg (by decide)]
    rw [htw, hdw2, if_neg (by simp [hne])] at hst
    have hst2 : (if isSepChar ':' then some X.reverse.reverse else none) = some v := hst
    rw [if_pos (by decide), List.reverse_reverse, Option.some_inj] at hst2
    rw [← hst2]
    omega
  · -- sd ends with a (possibly empty) hex run preceded by the non-hex `d`
    have hsplit : sd.reverse = sd.reverse.takeWhile isHexChar ++ d :: y := by
      have hh := List.takeWhile_append_dropWhile isHexChar sd.reverse
      rw [hdw] at hh
      exact hh.symm
    have hdnh : isHexChar d = false := dropWhile_head_not hdw
    have hallhr : ∀ c ∈ sd.reverse.takeWhile isHexChar, isHexChar c = true :=
      fun c hc => mem_takeWhile_sat hc
    have htw : (sd.reverse ++ ':' :: X.reverse).takeWhile isHexChar
        = sd.reverse.takeWhile isHexChar := by
      conv_lhs => rw [hsplit]
      rw [List.append_assoc, List.cons_append,
        takeWhile_append_of_all hallhr, List.takeWhile_cons, if_neg (by simp [hdnh])]
      simp
    have hdw2 : (sd.reverse ++ ':' :: X.reverse).dropWhile isHexChar
        = d :: (y ++ ':' :: X.reverse) := by
      conv_lhs => rw [hsplit]
      rw [List.append_assoc, List.cons_append,
        dropWhile_append_of_all hallhr, List.dropWhile_cons, if_neg (by simp [hdnh])]
    rw [htw, hdw2] at hst
    by_cases hhe : (sd.reverse.takeWhile isHexChar).isEmpty
    · rw [if_pos hhe] at hst; exact absurd hst (by simp)
    · rw [if_neg hhe] at hst
      have hst2 : (if isSepChar d then some (y ++ ':' :: X.reverse).reverse
          else none) = some v := hst
      by_cases hsep : isSepChar d
      · rw [if_pos hsep, Option.some_inj] at hst2
        have hsd2 : sd = y.reverse ++ d :: (sd.reverse.takeWhile isHexChar).reverse := by
          conv_lhs => rw [← List.reverse_reverse sd, hsplit]
          simp
        have hy : y.reverse = [] := by
          refine hmin y.reverse d ((sd.reverse.takeWhile isHexChar).reverse)
            hsd2 hsep ?_ ?_
          · simpa using (by simpa using hhe : ¬ sd.reverse.takeWhile isHexChar = [])
          · intro c hc
            exact hallhr c (List.mem_reverse.mp hc)
        have hy2 : y = [] := by simpa using hy
        subst hy2
        rw [← hst2]
        simp
      · rw [if_neg hsep] at hst2; exact absurd hst2 (by simp)

theorem stripGuard_boundary {X sd : List Char} (hne : sd ≠ [])
    (hmin : ∀ u d h, sd = u ++ d :: h → isSepChar d = true → h ≠ [] →
      (∀ c ∈ h, isHexChar c = true) → u = []) :
    stripGuard (X.length + 1) (X ++ ':' :: sd) = X ++ ':' :: sd := by
  rw [stripGuard]
  rcases hst : stripHexSegEnd (X ++ ':' :: sd) with _ | v
  · rfl
  · have hle := stripHexSegEnd_boundary hne hmin v hst
    show (if X.length + 1 < v.length then v else X ++ ':' :: sd) = X ++ ':' :: sd
    rw [if_neg (by omega)]

theorem sid_no_proper_trailing_seg {rest sd t : List Char}
    (hm : matchSid rest = some sd) (hrt : rest = sd ++ t)
    (ht : t = [] ∨ SegShape t) :
    ∀ u d h, sd = u ++ d :: h → isSepChar d = true → h ≠ [] →
      (∀ c ∈ h, isHexChar c = true) → u = [] := by
  intro u d h hsd hd hne hhex
  by_contra hu
  have hlen : u.length < sd.length := by
    rw [hsd]
    simp
  have hj := matchSid_min hm u.length (List.length_pos.mpr hu) hlen
  have hdrop : rest.drop u.length = d :: (h ++ t) := by
    rw [hrt, hsd, List.append_assoc, List.cons_append, List.drop_left]
  have htrue : suffixMatch (d :: (h ++ t)) = true := by
    rcases ht with ht | ht
    · subst ht
      have hss := suffixMatch_seg1 ⟨d, h, rfl, hd, hne, hhex⟩ (Or.inl rfl)
      simpa using hss
    · have hss := suffixMatch_seg2 ⟨d, h, rfl, hd, hne, hhex⟩ ht (Or.inl rfl)
      simpa using hss
  rw [hdrop, htrue] at hj
  simp at hj

theorem render_eq_canonical_core {ty rl sd t : List Char}
    (hty : ty = ("ANON".toList) ∨ ty = ("AUTH".toList))
    (hrc : ':' ∉ rl) (hsd : sd ≠ [])
    (hcases : (t = [] ∧ NoProperTrailingSeg sd) ∨
      ((∃ g, SegShape g ∧ t = g) ∧ NoProperTrailingSeg sd) ∨
      (∃ g1 g2, SegShape g1 ∧ SegShape g2 ∧ t = g1 ++ g2)) :
    (("SID:".toList) ++ ty ++ ':' :: rl) ++ ':' :: sd =
      canonicalStrip (("SID:".toList) ++ ty ++ ':' :: (rl ++ ':' :: (sd ++ t))) := by
  have hafter := @afterThirdColon_decomp ty rl (sd ++ t) hty hrc
  have hcs : canonicalStrip (("SID:".toList) ++ ty ++ ':' :: (rl ++ ':' :: (sd ++ t)))
      = stripGuard
          ((("SID:".toList) ++ ty ++ ':' :: (rl ++ ':' :: (sd ++ t))).length
            - (sd ++ t).length)
          (stripGuard
            ((("SID:".toList) ++ ty ++ ':' :: (rl ++ ':' :: (sd ++ t))).length
              - (sd ++ t).length)
            (("SID:".toList) ++ ty ++ ':' :: (rl ++ ':' :: (sd ++ t)))) := by
    rw [canonicalStrip, hafter]
  have hlen : (("SID:".toList) ++ ty ++ ':' :: (rl ++ ':' :: (sd ++ t))).length
      - (sd ++ t).length = (("SID:".toList) ++ ty ++ ':' :: rl).length + 1 := by
    simp only [List.length_append, List.length_cons]
    omega
  have hBIG : ("SID:".toList) ++ ty ++ ':' :: (rl ++ ':' :: (sd ++ t))
      = ((("SID:".toList) ++ ty ++ ':' :: rl) ++ ':' :: sd) ++ t := by
    simp [List.append_assoc]
  rw [hcs, hlen, hBIG]
  rcases hcases with ⟨ht, hmin⟩ | ⟨⟨g, hg, ht⟩, hmin⟩ | ⟨g1, g2, hg1, hg2, ht⟩
  · subst ht
    rw [List.append_nil, stripGuard_boundary hsd hmin, stripGuard_boundary hsd hmin]
  · subst ht
    rw [stripGuard_strip hg (by
        have hp := List.length_pos.mpr hsd
        simp only [List.length_append, List.length_cons]
        omega),
      stripGuard_boundary hsd hmin]
  · subst ht
    rw [← List.append_assoc]
    rw [stripGuard_strip hg2 (by
        have hp := List.length_pos.mpr hsd
        simp only [List.length_append, List.length_cons]
        omega),
      stripGuard_strip hg1 (by
        have hp := List.length_pos.mpr hsd
        simp only [List.length_append, List.length_cons]
        omega)]

/-- C2 counterexample: for `SID:ANON:a:b\n` (accepted because Python's `$`
also matches just before a final newline) the parser succeeds with session id
`b`, yet the input has *no* trailing hex suffix to remove — its canonical
form is itself — and the rendered header drops the newline.  So
`render(parse(s))` is not `s` with its 0–2 trailing hex suffixes removed. -/
theorem c2_counterexample :
    matchSessionId ("SID:ANON:a:b\n".toList) =
      some ⟨"ANON".toList, "a".toList, "b".toList⟩ ∧
    canonicalStrip ("SID:ANON:a:b\n".toList) = ("SID:ANON:a:b\n".toList) ∧
    render_session_header ⟨"ANON".toList, "a".toList, "b".toList⟩ ≠
      ("SID:ANON:a:b\n".toList) :=
  ⟨by decide, by decide, by decide⟩

/-- C2 (amended): for every wire string accepted by the parser that contains
no newline, rendering the parsed reference yields exactly the spec's
canonical suffix-free form of the input (`canonicalStrip`: up to two trailing
`[-:]hex+` segments removed, rightmost first, while a non-empty remainder
stays after the third colon).  Inputs ending in a newline — accepted because
of Python's `$` semantics — additionally lose that newline. -/
theorem c2_render_roundtrip_canonical {s : List Char} {u : SessionURI}
    (h : matchSessionId s = some u) (hnl : '\n' ∉ s) :
    render_session_header u = canonicalStrip s := by
  obtain ⟨hty, hnc, hnn, hne, hnlsd, t, hs, hsm, hms⟩ := matchSessionId_sound h
  have hnt : '\n' ∉ t := by
    intro hm
    apply hnl
    rw [hs]
    exact List.mem_append.mpr (Or.inr (List.mem_cons_of_mem _
      (List.mem_append.mpr (Or.inr (List.mem_cons_of_mem _
        (List.mem_append.mpr (Or.inr hm)))))))
  have htshape : (t = [] ∧ NoProperTrailingSeg u.session_id) ∨
      ((∃ g, SegShape g ∧ t = g) ∧ NoProperTrailingSeg u.session_id) ∨
      (∃ g1 g2, SegShape g1 ∧ SegShape g2 ∧ t = g1 ++ g2) := by
    rcases suffixMatch_sound hsm with hsh | hsh | hsh
    · rcases hsh with hsh | hsh
      · exact Or.inl ⟨hsh, sid_no_proper_trailing_seg hms rfl (Or.inl hsh)⟩
      · exact absurd (by rw [hsh]; exact List.mem_singleton.mpr rfl) hnt
    · obtain ⟨g, e, hg, he, hteq⟩ := hsh
      rcases he with he | he
      · subst he
        rw [List.append_nil] at hteq
        exact Or.inr (Or.inl ⟨⟨g, hg, hteq⟩,
          sid_no_proper_trailing_seg hms rfl (Or.inr (hteq ▸ hg))⟩)
      · subst he
        exact absurd (by
          rw [hteq]
          exact List.mem_append.mpr (Or.inr (List.mem_singleton.mpr rfl))) hnt
    · obtain ⟨g1, g2, e, hg1, hg2, he, hteq⟩ := hsh
      rcases he with he | he
      · subst he
        rw [List.append_nil] at hteq
        exact Or.inr (Or.inr ⟨g1, g2, hg1, hg2, hteq⟩)
      · subst he
        exact absurd (by
          rw [hteq]
          exact List.mem_append.mpr (Or.inr (List.mem_singleton.mpr rfl))) hnt
  have hcore := render_eq_canonical_core hty hnc hne htshape
  rw [render_session_header, hs]
  exact hcore

/-- Witness for C2 at the spec's worked round-trip example. -/
theorem c2_witness :
    render_session_header
        ⟨"ANON".toList, "example.com".toList, "987171879".toList⟩
      = canonicalStrip ("SID:ANON:example.com:987171879-16EF".toList) ∧
    canonicalStrip ("SID:ANON:example.com:987171879-16EF".toList)
      = ("SID:ANON:example.com:987171879".toList) :=
  ⟨@c2_render_roundtrip_canonical
      ("SID:ANON:example.com:987171879-16EF".toList)
      ⟨"ANON".toList, "example.com".toList, "987171879".toList⟩
      (by decide) (by decide),
    by decide⟩
